import Mathlib

/-!
Shallow embedding of the cortile tiling-manager core (store/client.go,
store/manager.go, desktop/tracker.go) used to settle the frozen claims.

Window clients are identified by their X window id (a natural number);
Go float64 proportions are modelled as rationals, Go `int` as `Int`,
Go slices as Lean lists.  Stateful methods become pure functions from
the relevant state record to a new state record, with X-server requests
and filesystem operations reified as explicit traces.
-/

namespace Cortile

/-- Window geometry, from common.Geometry. -/
structure Geometry where
  x : Int
  y : Int
  width : Int
  height : Int
deriving DecidableEq, Repr

/-- Workspace location, from store.Location. -/
structure Location where
  desktop : Nat
  screen : Nat
deriving DecidableEq, Repr

/-- Frame extents, from ewmh.FrameExtents as used in store.Dimensions. -/
structure Extents where
  left : Int
  right : Int
  top : Int
  bottom : Int
deriving DecidableEq, Repr

/-- Client window dimensions, from store.Dimensions (hints omitted:
no claim consults them). -/
structure Dimensions where
  geometry : Geometry
  extents : Extents
  adjPos : Bool
  adjSize : Bool
  adjRestore : Bool
deriving DecidableEq, Repr

/-- Client window information snapshot, from store.Info.
`wmClass` embeds the Go field `Class` (a Lean keyword). -/
structure Info where
  wmClass : String
  name : String
  types : List String
  states : List String
  location : Location
  dimensions : Dimensions
deriving DecidableEq, Repr

/-! ## Manager (store/manager.go) -/

/-- A bucket of window clients, from store.Clients: the configured cap
and the stacked window ids. -/
structure ClientsBucket where
  maximum : Int
  stacked : List Nat
deriving DecidableEq, Repr

/-- Master/slave partition of a Manager, from store.Manager (location,
proportions and decoration omitted where a claim does not touch them). -/
structure ManagerState where
  masters : ClientsBucket
  slaves : ClientsBucket
deriving DecidableEq, Repr

/-- Manager.index: first position of window id `c` in the stacked list,
-1 when absent (the Go loop over `windows.Stacked`). -/
def indexOfId : List Nat → Nat → Int
  | [], _ => -1
  | w :: ws, c =>
    if w = c then 0
    else
      let r := indexOfId ws c
      if r = -1 then -1 else r + 1

/-- Manager.swapClient: four cases by bucket membership, first match wins,
mirroring the Go parallel assignments. -/
def swapClient (mg : ManagerState) (c1 c2 : Nat) : ManagerState :=
  let ms := mg.masters.stacked
  let ss := mg.slaves.stacked
  let m1 := indexOfId ms c1
  let s1 := indexOfId ss c1
  let m2 := indexOfId ms c2
  let s2 := indexOfId ss c2
  if 0 ≤ m1 ∧ 0 ≤ m2 then
    let ms' := (ms.set m2.toNat (ms.getD m1.toNat 0)).set m1.toNat (ms.getD m2.toNat 0)
    { mg with masters := { mg.masters with stacked := ms' } }
  else if 0 ≤ m1 ∧ 0 ≤ s2 then
    let ms' := ms.set m1.toNat (ss.getD s2.toNat 0)
    let ss' := ss.set s2.toNat (ms.getD m1.toNat 0)
    { masters := { mg.masters with stacked := ms' },
      slaves := { mg.slaves with stacked := ss' } }
  else if 0 ≤ s1 ∧ 0 ≤ m2 then
    let ms' := ms.set m2.toNat (ss.getD s1.toNat 0)
    let ss' := ss.set s1.toNat (ms.getD m2.toNat 0)
    { masters := { mg.masters with stacked := ms' },
      slaves := { mg.slaves with stacked := ss' } }
  else if 0 ≤ s1 ∧ 0 ≤ s2 then
    let ss' := (ss.set s2.toNat (ss.getD s1.toNat 0)).set s1.toNat (ss.getD s2.toNat 0)
    { mg with slaves := { mg.slaves with stacked := ss' } }
  else mg

/-- Manager.RemoveClient: a removed master is swapped with the front slave
(which is then dropped); otherwise the client is erased from its bucket. -/
def removeClient (mg : ManagerState) (c : Nat) : ManagerState :=
  let mi := indexOfId mg.masters.stacked c
  let mg1 :=
    if 0 ≤ mi then
      if mg.slaves.stacked ≠ [] then
        let sw := swapClient mg (mg.masters.stacked.getD mi.toNat 0) (mg.slaves.stacked.getD 0 0)
        { sw with slaves := { sw.slaves with stacked := sw.slaves.stacked.drop 1 } }
      else
        { mg with masters := { mg.masters with stacked := mg.masters.stacked.eraseIdx mi.toNat } }
    else mg
  let si := indexOfId mg1.slaves.stacked c
  if 0 ≤ si then
    { mg1 with slaves := { mg1.slaves with stacked := mg1.slaves.stacked.eraseIdx si.toNat } }
  else mg1

/-- Manager.MakeMaster: swap `c` with the current front master, when any. -/
def makeMaster (mg : ManagerState) (c : Nat) : ManagerState :=
  if 0 < mg.masters.stacked.length then
    swapClient mg c (mg.masters.stacked.getD 0 0)
  else mg

/-- Manager.IncreaseMaster: take the front slave into the masters, capped
at the configured `windowMastersMax`. -/
def increaseMaster (windowMastersMax : Int) (mg : ManagerState) : ManagerState :=
  if 1 < mg.slaves.stacked.length ∧ mg.masters.maximum < windowMastersMax then
    let ms' := mg.masters.stacked ++ [mg.slaves.stacked.getD 0 0]
    { masters := { maximum := mg.masters.maximum + 1, stacked := ms' },
      slaves := { mg.slaves with stacked := mg.slaves.stacked.drop 1 } }
  else mg

/-- Manager.DecreaseMaster: demote the last master to the front of the slaves. -/
def decreaseMaster (mg : ManagerState) : ManagerState :=
  if 0 < mg.masters.stacked.length then
    let last := mg.masters.stacked.getD (mg.masters.stacked.length - 1) 0
    { masters := { maximum := mg.masters.maximum - 1, stacked := mg.masters.stacked.dropLast },
      slaves := { mg.slaves with stacked := last :: mg.slaves.stacked } }
  else mg

/-- Manager.SetProportions: validate indices and the clamp of the new value
and of the computed neighbor, then assign both entries of the row. -/
def setProportions (pmin : ℚ) (ps : List ℚ) (np : ℚ) (i j : Int) :
    Bool × List ℚ :=
  if i = j ∨ i < 0 ∨ (ps.length : Int) ≤ i ∨ j < 0 ∨ (ps.length : Int) ≤ j then
    (false, ps)
  else
    let pic := min (max np pmin) (1 - pmin)
    if np ≠ pic then (false, ps)
    else
      let pj := ps.getD j.toNat 0 + (ps.getD i.toNat 0 - np)
      let pjc := min (max pj pmin) (1 - pmin)
      if pj ≠ pjc then (false, ps)
      else (true, (ps.set i.toNat np).set j.toNat pj)

/-- Manager.Ordered: the bucket's clients filtered by the global
bottom-to-top stacking order. -/
def ordered (stackingOrder : List Nat) (b : ClientsBucket) : List Nat :=
  stackingOrder.filter (fun w => b.stacked.contains w)

/-- The slot a client occupies in Manager.Visible: its bucket index
modulo the bucket's maximum. -/
def visibleSlot (b : ClientsBucket) (c : Nat) : Nat :=
  (indexOfId b.stacked c % b.maximum).toNat

/-- Manager.Visible: an array of `min(len(stacked), maximum)` slots,
filled by writing each ordered client at its index-mod-maximum slot
(unfilled slots keep the nil pointer, modelled as `none`). -/
def visible (stackingOrder : List Nat) (b : ClientsBucket) : List (Option Nat) :=
  (ordered stackingOrder b).foldl
    (fun acc c => acc.set (visibleSlot b c) (some c))
    (List.replicate (min (b.stacked.length : Int) b.maximum).toNat none)

/-- Manager.Clients with the Visible flag: visible masters then visible slaves. -/
def clientsVisible (stackingOrder : List Nat) (mg : ManagerState) : List (Option Nat) :=
  visible stackingOrder mg.masters ++ visible stackingOrder mg.slaves

/-! ## Client update and dirty flag (store/client.go) -/

/-- The states kept by filterPersistentStates (the switch cases). -/
def persistentStateNames : List String :=
  ["_NET_WM_STATE_MAXIMIZED_VERT", "_NET_WM_STATE_MAXIMIZED_HORZ",
   "_NET_WM_STATE_FULLSCREEN", "_NET_WM_STATE_HIDDEN", "_NET_WM_STATE_STICKY",
   "_NET_WM_STATE_SHADED", "_NET_WM_STATE_SKIP_TASKBAR", "_NET_WM_STATE_SKIP_PAGER",
   "_NET_WM_STATE_ABOVE", "_NET_WM_STATE_BELOW"]

/-- filterPersistentStates: keep only restoration-relevant states,
preserving order (transient states such as FOCUSED and DEMANDS_ATTENTION drop out). -/
def filterPersistentStates (states : List String) : List String :=
  states.filter (fun s => persistentStateNames.contains s)

/-- The mutable per-client state touched by Update/MoveWindow. -/
structure ClientState where
  locked : Bool
  latest : Option Info
  dirty : Bool
deriving Repr

/-- The dirty condition computed in Client.Update: geometry changed,
persistent-state lists differ (reflect.DeepEqual on the filtered lists),
or desktop/screen location changed. -/
def infoDiffers (info old : Info) : Bool :=
  (info.dimensions.geometry != old.dimensions.geometry) ||
  (filterPersistentStates info.states != filterPersistentStates old.states) ||
  (info.location.desktop != old.location.desktop ||
   info.location.screen != old.location.screen)

/-- Client.Update with the freshly fetched `info`: discard when the class is
empty; otherwise compare against the prior latest, set the dirty flag on any
difference, and install the new snapshot. -/
def clientUpdate (c : ClientState) (info : Info) : ClientState :=
  if info.wmClass.length = 0 then c
  else
    match c.latest with
    | none => { c with latest := some info }
    | some old =>
      if infoDiffers info old then { c with dirty := true, latest := some info }
      else { c with latest := some info }

/-! ## Client cache write (store/client.go Write) -/

/-- Filesystem operations performed by Client.Write, in attempt order. -/
inductive FsOp where
  | createTemp
  | writeData
  | syncTemp
  | closeTemp
  | chmodTemp
  | renameTemp
  | removeTemp
deriving DecidableEq, Repr

/-- Outcome of each fallible step of Client.Write. -/
structure WriteOutcome where
  marshalOk : Bool
  createTempOk : Bool
  writeOk : Bool
  syncOk : Bool
  closeOk : Bool
  chmodOk : Bool
  renameOk : Bool
deriving DecidableEq, Repr

/-- The successful temp-file protocol: create the sibling temp file, write
all bytes, fsync, close, chmod 0644, atomic rename over the target. -/
def writeProtocol : List FsOp :=
  [FsOp.createTemp, FsOp.writeData, FsOp.syncTemp, FsOp.closeTemp,
   FsOp.chmodTemp, FsOp.renameTemp]

/-- Client.Write: the trace of filesystem operations attempted and the
resulting dirty flag.  A clean client (or disabled cache) performs nothing;
the deferred cleanup closes the temp file when it is still open and removes
it on any failure after its creation; the dirty flag is cleared only after
the rename succeeded. -/
def clientWrite (cacheDisabled dirty : Bool) (o : WriteOutcome) :
    List FsOp × Bool :=
  if cacheDisabled then ([], dirty)
  else if !dirty then ([], dirty)
  else if !o.marshalOk then ([], dirty)
  else if !o.createTempOk then ([FsOp.createTemp], dirty)
  else if !o.writeOk then
    ([FsOp.createTemp, FsOp.writeData, FsOp.closeTemp, FsOp.removeTemp], dirty)
  else if !o.syncOk then
    ([FsOp.createTemp, FsOp.writeData, FsOp.syncTemp, FsOp.closeTemp,
      FsOp.removeTemp], dirty)
  else if !o.closeOk then
    ([FsOp.createTemp, FsOp.writeData, FsOp.syncTemp, FsOp.closeTemp,
      FsOp.closeTemp, FsOp.removeTemp], dirty)
  else if !o.chmodOk then
    ([FsOp.createTemp, FsOp.writeData, FsOp.syncTemp, FsOp.closeTemp,
      FsOp.chmodTemp, FsOp.removeTemp], dirty)
  else if !o.renameOk then
    ([FsOp.createTemp, FsOp.writeData, FsOp.syncTemp, FsOp.closeTemp,
      FsOp.chmodTemp, FsOp.renameTemp, FsOp.removeTemp], dirty)
  else (writeProtocol, false)

/-! ## Debounced write scheduler (desktop/tracker.go) -/

/-- writeDebounce = 750 * time.Millisecond, in milliseconds. -/
def writeDebounceMs : Int := 750

/-- The tracker's write-scheduling state: pending flag, pending deadline,
the armed timer's absolute fire time, and the times at which doWrite began. -/
structure SchedState where
  writeDue : Bool
  writeDueAt : Int
  timer : Option Int
  writes : List Int
deriving DecidableEq, Repr

/-- Tracker.ScheduleWrite at absolute time `now`: keep the earlier of the
pending deadline and `now + 750`, mark a write due, and (re)arm the timer
to fire at the deadline (clamped to not lie in the past). -/
def scheduleWrite (now : Int) (s : SchedState) : SchedState :=
  let deadline := now + writeDebounceMs
  let dueAt := if !s.writeDue ∨ deadline < s.writeDueAt then deadline else s.writeDueAt
  let delay := max (dueAt - now) 0
  { writeDue := true, writeDueAt := dueAt, timer := some (now + delay),
    writes := s.writes }

/-- Tracker.flushScheduledWrite at absolute time `now`: nothing is due →
drop the timer; deadline still in the future → re-arm for the deadline;
otherwise run Tracker.Write, whose worker's doWrite clears the due flag. -/
def flushScheduledWrite (now : Int) (s : SchedState) : SchedState :=
  if !s.writeDue then { s with timer := none }
  else if 0 < s.writeDueAt - now then { s with timer := some s.writeDueAt }
  else
    { writeDue := false, writeDueAt := s.writeDueAt, timer := none,
      writes := s.writes ++ [now] }

/-! ## Trackability predicate (desktop/tracker.go, store/client.go) -/

/-- The special EWMH window types rejected by store.IsSpecial. -/
def specialTypeNames : List String :=
  ["_NET_WM_WINDOW_TYPE_DOCK", "_NET_WM_WINDOW_TYPE_DESKTOP",
   "_NET_WM_WINDOW_TYPE_TOOLBAR", "_NET_WM_WINDOW_TYPE_UTILITY",
   "_NET_WM_WINDOW_TYPE_TOOLTIP", "_NET_WM_WINDOW_TYPE_SPLASH",
   "_NET_WM_WINDOW_TYPE_DIALOG", "_NET_WM_WINDOW_TYPE_COMBO",
   "_NET_WM_WINDOW_TYPE_NOTIFICATION", "_NET_WM_WINDOW_TYPE_DROPDOWN_MENU",
   "_NET_WM_WINDOW_TYPE_POPUP_MENU", "_NET_WM_WINDOW_TYPE_MENU",
   "_NET_WM_WINDOW_TYPE_DND"]

/-- The special EWMH window states rejected by store.IsSpecial. -/
def specialStateNames : List String :=
  ["_NET_WM_STATE_HIDDEN", "_NET_WM_STATE_MODAL", "_NET_WM_STATE_ABOVE",
   "_NET_WM_STATE_BELOW", "_NET_WM_STATE_SKIP_PAGER", "_NET_WM_STATE_SKIP_TASKBAR"]

/-- Ambient context of the trackability predicate: the regex matcher
(pattern, text), the configured `window_ignore` pairs, the build name of
the tool itself (common.Build.Name) and the current desktop. -/
structure TrackerCtx where
  regexMatch : String → String → Bool
  windowIgnore : List (String × String)
  buildName : String
  currentDesktop : Nat

/-- store.IsSpecial: internal windows (class equals the build name), special
EWMH types, and special EWMH states; a HIDDEN state on a non-current desktop
is skipped by the state loop. -/
def isSpecial (ctx : TrackerCtx) (info : Info) : Bool :=
  if info.wmClass = ctx.buildName then true
  else if info.types.any (fun t => specialTypeNames.contains t) then true
  else info.states.any (fun s =>
    if s = "_NET_WM_STATE_HIDDEN" ∧ info.location.desktop ≠ ctx.currentDesktop then false
    else specialStateNames.contains s)

/-- store.IsIgnored: empty class, or some configured pair whose class regex
matches (lower-cased) while its name regex does not rescue the window. -/
def isIgnored (ctx : TrackerCtx) (info : Info) : Bool :=
  if info.wmClass.length = 0 then true
  else ctx.windowIgnore.any (fun p =>
    let classMatch := ctx.regexMatch p.1.toLower info.wmClass.toLower
    let nameMatch := (p.2 != "") && ctx.regexMatch p.2.toLower info.name.toLower
    classMatch && !nameMatch)

/-- Tracker.isTrackableInfo: nil info is untrackable; hidden windows on
other desktops bypass the IsSpecial check; otherwise both IsSpecial and
IsIgnored must reject. -/
def isTrackableInfo (ctx : TrackerCtx) (info : Option Info) : Bool :=
  match info with
  | none => false
  | some i =>
    if i.states.contains "_NET_WM_STATE_HIDDEN" &&
        (i.location.desktop != ctx.currentDesktop) then
      !(isIgnored ctx i)
    else
      !(isSpecial ctx i) && !(isIgnored ctx i)

/-- No configured ignore pair rejects the window: whenever a pair's class
regex matches, its name regex is non-empty and matches the window name. -/
def NoIgnoreMatch (ctx : TrackerCtx) (i : Info) : Prop :=
  ∀ p ∈ ctx.windowIgnore,
    ctx.regexMatch p.1.toLower i.wmClass.toLower = true →
    (p.2 ≠ "" ∧ ctx.regexMatch p.2.toLower i.name.toLower = true)

/-- The amended C7 trackability condition: for a hidden window on a
non-current desktop only the class/ignore checks apply; otherwise the class
must be non-empty and different from the tool's own build name, no special
EWMH type may occur, every special state present must be the skipped
hidden-on-other-desktop case, and no ignore pair may match. -/
def TrackableAmended (ctx : TrackerCtx) (i : Info) : Prop :=
  if i.states.contains "_NET_WM_STATE_HIDDEN" = true ∧
      i.location.desktop ≠ ctx.currentDesktop then
    i.wmClass ≠ "" ∧ NoIgnoreMatch ctx i
  else
    i.wmClass ≠ "" ∧ i.wmClass ≠ ctx.buildName ∧
    (∀ t ∈ i.types, t ∉ specialTypeNames) ∧
    (∀ s ∈ i.states, s ∈ specialStateNames →
      s = "_NET_WM_STATE_HIDDEN" ∧ i.location.desktop ≠ ctx.currentDesktop) ∧
    NoIgnoreMatch ctx i

/-! ## Client move (store/client.go MoveWindow) -/

/-- X requests issued by Client.MoveWindow (the trailing Update refresh is
reified as an explicit operation). -/
inductive XOp where
  | removeState (atom : String)
  | moveResize (x y w h : Int)
  | move (x y : Int)
  | update
deriving DecidableEq, Repr

/-- store.IsMaximized on an info snapshot. -/
def isMaximized (i : Info) : Bool :=
  i.states.contains "_NET_WM_STATE_MAXIMIZED_VERT" ||
  i.states.contains "_NET_WM_STATE_MAXIMIZED_HORZ"

/-- store.IsFullscreen on an info snapshot. -/
def isFullscreen (i : Info) : Bool :=
  i.states.contains "_NET_WM_STATE_FULLSCREEN"

/-- Client.UnMaximize: remove both maximize states when maximized. -/
def unMaximizeOps (i : Info) : List XOp :=
  if isMaximized i then
    [XOp.removeState "_NET_WM_STATE_MAXIMIZED_VERT",
     XOp.removeState "_NET_WM_STATE_MAXIMIZED_HORZ"]
  else []

/-- Client.UnFullscreen: remove the fullscreen state when fullscreen. -/
def unFullscreenOps (i : Info) : List XOp :=
  if isFullscreen i then [XOp.removeState "_NET_WM_STATE_FULLSCREEN"] else []

/-- Client.MoveWindow(x, y, w, h): a locked client consumes the lock and
issues nothing; otherwise clear maximize and fullscreen, compensate for
decorations via the extents when adjPos/adjSize are set, then request a
move-resize (or a move only, when w or h is non-positive) and refresh.
Returns the request trace and the new lock flag. -/
def moveWindow (latest : Info) (locked : Bool) (x y w h : Int) :
    List XOp × Bool :=
  if locked then ([], false)
  else
    let ext := latest.dimensions.extents
    let dx := if latest.dimensions.adjPos then ext.left else 0
    let dy := if latest.dimensions.adjPos then ext.top else 0
    let dw := if latest.dimensions.adjSize then ext.left + ext.right else 0
    let dh := if latest.dimensions.adjSize then ext.top + ext.bottom else 0
    let req := if 0 < w ∧ 0 < h then XOp.moveResize (x + dx) (y + dy) (w - dw) (h - dh)
      else XOp.move (x + dx) (y + dy)
    (unMaximizeOps latest ++ unFullscreenOps latest ++ [req, XOp.update], false)

/-! ## Concrete sample data used by witnesses and counterexamples -/

/-- Zero frame extents. -/
def extents0 : Extents := { left := 0, right := 0, top := 0, bottom := 0 }

/-- A plain dimension record with a 100×100 window at the origin. -/
def dims0 : Dimensions :=
  { geometry := { x := 0, y := 0, width := 100, height := 100 },
    extents := extents0, adjPos := false, adjSize := false, adjRestore := false }

/-- A plain trackable window info. -/
def info0 : Info :=
  { wmClass := "Alpha", name := "alpha", types := [], states := [],
    location := { desktop := 0, screen := 0 }, dimensions := dims0 }

/-- info0 with a different width (a real geometry change). -/
def info1 : Info :=
  { info0 with dimensions :=
      { dims0 with geometry := { x := 0, y := 0, width := 200, height := 100 } } }

/-- An info whose class is the tool's own build name. -/
def infoCortile : Info :=
  { wmClass := "cortile", name := "cortile", types := [], states := [],
    location := { desktop := 0, screen := 0 }, dimensions := dims0 }

/-- A tracker context with no ignore pairs and a never-matching regex. -/
def ctx0 : TrackerCtx :=
  { regexMatch := fun _ _ => false, windowIgnore := [], buildName := "cortile",
    currentDesktop := 0 }

end Cortile

namespace Cortile

/-! ## C1: SetProportions -/

/-- Sum of a list after replacing one entry. -/
theorem sum_set_eq (l : List ℚ) (i : Nat) (a : ℚ) (h : i < l.length) :
    (l.set i a).sum = l.sum - l.get ⟨i, h⟩ + a := by
  induction l generalizing i with
  | nil => simp at h
  | cons x xs ih =>
    cases i with
    | zero => simp [List.set]; ring
    | succ n =>
      simp only [List.set, List.sum_cons, List.get]
      rw [ih n (by simpa using h)]
      ring

/-- C1: `SetProportions(row, newValue, i, j)` fails (returning `false` with the
row unchanged) when `i = j`, when an index is out of range, when `newValue`
lies outside `[proportion_min, 1 - proportion_min]`, or when the computed
neighbor `row[j] + (row[i] - newValue)` lies outside that interval;
`newValue = proportion_min` passes the clamp; on success it writes
`row[i] := newValue` and `row[j] :=` the neighbor, preserving the row sum. -/
theorem setProportions_claim (pmin : ℚ) (ps : List ℚ) (np : ℚ) (i j : Int)
    (hpm : pmin ≤ 1 - pmin) :
    (i = j → setProportions pmin ps np i j = (false, ps)) ∧
    (¬ (0 ≤ i ∧ i < (ps.length : Int)) ∨ ¬ (0 ≤ j ∧ j < (ps.length : Int)) →
      setProportions pmin ps np i j = (false, ps)) ∧
    (np < pmin ∨ 1 - pmin < np → setProportions pmin ps np i j = (false, ps)) ∧
    (∀ pj, pj = ps.getD j.toNat 0 + (ps.getD i.toNat 0 - np) →
      (pj < pmin ∨ 1 - pmin < pj) → setProportions pmin ps np i j = (false, ps)) ∧
    (i ≠ j → 0 ≤ i → i < (ps.length : Int) → 0 ≤ j → j < (ps.length : Int) →
      pmin ≤ np → np ≤ 1 - pmin →
      ∀ pj, pj = ps.getD j.toNat 0 + (ps.getD i.toNat 0 - np) →
      pmin ≤ pj → pj ≤ 1 - pmin →
      setProportions pmin ps np i j = (true, (ps.set i.toNat np).set j.toNat pj) ∧
        ((ps.set i.toNat np).set j.toNat pj).sum = ps.sum) := by
  refine ⟨?_, ?_, ?_, ?_, ?_⟩
  · intro hij
    simp [setProportions, hij]
  · intro hrange
    have : i = j ∨ i < 0 ∨ (ps.length : Int) ≤ i ∨ j < 0 ∨ (ps.length : Int) ≤ j := by
      rcases hrange with h | h <;> omega
    simp only [setProportions, if_pos this]
  · intro hclamp
    by_cases hfail : i = j ∨ i < 0 ∨ (ps.length : Int) ≤ i ∨ j < 0 ∨ (ps.length : Int) ≤ j
    · simp only [setProportions, if_pos hfail]
    · have hne : np ≠ min (max np pmin) (1 - pmin) := by
        rcases hclamp with h | h
        · have hmax : max np pmin = pmin := max_eq_right h.le
          rw [hmax, min_eq_left hpm]
          exact ne_of_lt h
        · have hmax : max np pmin = np := max_eq_left (le_trans (le_trans hpm h.le) (le_refl np))
          rw [hmax, min_eq_right h.le]
          exact fun hc => absurd hc.symm (ne_of_lt h)
      simp only [setProportions, if_neg hfail, if_pos hne]
  · intro pj hpj hclamp
    by_cases hfail : i = j ∨ i < 0 ∨ (ps.length : Int) ≤ i ∨ j < 0 ∨ (ps.length : Int) ≤ j
    · simp only [setProportions, if_pos hfail]
    · by_cases hnp : np ≠ min (max np pmin) (1 - pmin)
      · simp only [setProportions, if_neg hfail, if_pos hnp]
      · have hne : pj ≠ min (max pj pmin) (1 - pmin) := by
          rcases hclamp with h | h
          · rw [max_eq_right h.le, min_eq_left hpm]
            exact ne_of_lt h
          · rw [max_eq_left (le_trans hpm h.le), min_eq_right h.le]
            exact fun hc => absurd hc.symm (ne_of_lt h)
        simp only [setProportions, if_neg hfail, if_neg hnp, hpj.symm, if_pos hne]
  · intro hij hi0 hilen hj0 hjlen hnp1 hnp2 pj hpj hpj1 hpj2
    have hfail : ¬ (i = j ∨ i < 0 ∨ (ps.length : Int) ≤ i ∨ j < 0 ∨ (ps.length : Int) ≤ j) := by
      push_neg
      exact ⟨hij, by omega, by omega, by omega, by omega⟩
    have hnp : ¬ np ≠ min (max np pmin) (1 - pmin) := by
      rw [max_eq_left hnp1, min_eq_left hnp2]
      exact fun h => h rfl
    have hpjc : ¬ pj ≠ min (max pj pmin) (1 - pmin) := by
      rw [max_eq_left hpj1, min_eq_left hpj2]
      exact fun h => h rfl
    constructor
    · simp only [setProportions, if_neg hfail, if_neg hnp, hpj.symm, if_neg hpjc]
    · have hilt : i.toNat < ps.length := by omega
      have hjlt : j.toNat < ps.length := by omega
      have hij' : i.toNat ≠ j.toNat := by omega
      have hlen : j.toNat < (ps.set i.toNat np).length := by
        simpa using hjlt
      rw [sum_set_eq _ _ _ hlen, sum_set_eq _ _ _ hilt]
      have hget : (ps.set i.toNat np).get ⟨j.toNat, hlen⟩ = ps.get ⟨j.toNat, hjlt⟩ := by
        simp only [List.get_eq_getElem]
        exact List.getElem_set_ne hij' _
      rw [hget, hpj]
      have hgi : ps.getD i.toNat 0 = ps.get ⟨i.toNat, hilt⟩ := by
        simp [List.getD_eq_getElem?_getD, List.getElem?_eq_getElem hilt]
      have hgj : ps.getD j.toNat 0 = ps.get ⟨j.toNat, hjlt⟩ := by
        simp [List.getD_eq_getElem?_getD, List.getElem?_eq_getElem hjlt]
      rw [hgi, hgj]
      ring

/-- Concrete instance of C1: on the default master/slave row `[1/2, 1/2]`
with `proportion_min = 1/10`, setting index 0 to `1/10` (the clamp boundary)
succeeds and yields the row `[1/10, 9/10]`. -/
theorem setProportions_claim_witness :
    setProportions (1/10) [1/2, 1/2] (1/10) 0 1 = (true, [1/10, 9/10]) := by
  have h := (setProportions_claim (1/10) [1/2, 1/2] (1/10) 0 1 (by norm_num)).2.2.2.2
    (by decide) (by decide) (by decide) (by decide) (by decide)
    (by norm_num) (by norm_num) (9/10) (by norm_num) (by norm_num) (by norm_num)
  rw [h.1]
  norm_num

/-! ## Helper lemmas about Manager.index -/

/-- A window id absent from the stacked list has index -1. -/
theorem indexOfId_of_not_mem {ws : List Nat} {c : Nat} (h : c ∉ ws) :
    indexOfId ws c = -1 := by
  induction ws with
  | nil => rfl
  | cons w ws ih =>
    have hw : w ≠ c := fun hc => h (hc ▸ List.mem_cons_self w ws)
    have hm : c ∉ ws := fun hc => h (List.mem_cons_of_mem w hc)
    simp [indexOfId, hw, ih hm]

/-- The index of a present window id: nonnegative, within range, and the
stacked list holds that id there (first occurrence). -/
theorem indexOfId_spec {ws : List Nat} {c : Nat} (h : c ∈ ws) :
    0 ≤ indexOfId ws c ∧ (indexOfId ws c).toNat < ws.length ∧
      ws.getD (indexOfId ws c).toNat 0 = c := by
  induction ws with
  | nil => simp at h
  | cons w ws ih =>
    by_cases hw : w = c
    · subst hw
      simp [indexOfId]
    · have hm : c ∈ ws := by
        rcases List.mem_cons.mp h with hc | hc
        · exact absurd hc.symm hw
        · exact hc
      obtain ⟨h0, hlt, hget⟩ := ih hm
      have hne : indexOfId ws c ≠ -1 := by omega
      have htn : (indexOfId ws c + 1).toNat = (indexOfId ws c).toNat + 1 := by omega
      refine ⟨?_, ?_, ?_⟩
      · simp only [indexOfId, if_neg hw, if_neg hne]
        omega
      · simp only [indexOfId, if_neg hw, if_neg hne, List.length_cons, htn]
        omega
      · simp only [indexOfId, if_neg hw, if_neg hne, htn, List.getD_cons_succ]
        exact hget

/-! ## C10: SwapClient and MakeMaster with an absent client -/

/-- C10: when at least one of the two clients is in neither bucket,
`SwapClient(a, b)` leaves the manager unchanged; in particular
`MakeMaster(c)` for an untracked client changes nothing. -/
theorem swapClient_absent_claim (mg : ManagerState) (a b : Nat) :
    ((a ∉ mg.masters.stacked ∧ a ∉ mg.slaves.stacked) ∨
      (b ∉ mg.masters.stacked ∧ b ∉ mg.slaves.stacked) →
      swapClient mg a b = mg) ∧
    (a ∉ mg.masters.stacked → a ∉ mg.slaves.stacked → makeMaster mg a = mg) := by
  have hsw : ∀ x y : Nat,
      (x ∉ mg.masters.stacked ∧ x ∉ mg.slaves.stacked) ∨
        (y ∉ mg.masters.stacked ∧ y ∉ mg.slaves.stacked) →
      swapClient mg x y = mg := by
    intro x y hxy
    rcases hxy with ⟨h1, h2⟩ | ⟨h1, h2⟩
    · simp [swapClient, indexOfId_of_not_mem h1, indexOfId_of_not_mem h2]
    · simp [swapClient, indexOfId_of_not_mem h1, indexOfId_of_not_mem h2]
  constructor
  · exact hsw a b
  · intro h1 h2
    by_cases hm : 0 < mg.masters.stacked.length
    · simp only [makeMaster, if_pos hm]
      exact hsw a _ (Or.inl ⟨h1, h2⟩)
    · simp [makeMaster, hm]

/-- Concrete instance of C10: making the untracked window 3 a master in
a manager holding masters [1] and slaves [2] changes nothing. -/
theorem swapClient_absent_claim_witness :
    makeMaster { masters := { maximum := 1, stacked := [1] },
                 slaves := { maximum := 2, stacked := [2] } } 3
      = { masters := { maximum := 1, stacked := [1] },
          slaves := { maximum := 2, stacked := [2] } } :=
  (swapClient_absent_claim _ 3 0).2 (by decide) (by decide)

/-! ## C2: Client.Update dirty computation -/

/-- Refutation of C2 as stated: a client that is already dirty stays dirty
after an update that changes nothing, so after `update()` the dirty flag
does not equal "the new Info differs from the prior latest". -/
theorem clientUpdate_claim_counterexample :
    (clientUpdate { locked := false, latest := some info0, dirty := true }
        info0).dirty = true ∧
    infoDiffers info0 info0 = false := by
  constructor
  · decide
  · decide

/-- C2 as amended: an update whose fresh Info has an empty class is
discarded entirely; otherwise, against a prior latest snapshot, the new
dirty flag is the old one OR-ed with whether geometry, persistent states
or location changed, and the latest snapshot is replaced. -/
theorem clientUpdate_amended (c : ClientState) (info : Info) :
    (info.wmClass = "" → clientUpdate c info = c) ∧
    (info.wmClass ≠ "" → ∀ old, c.latest = some old →
      (clientUpdate c info).dirty = (c.dirty || infoDiffers info old) ∧
      (clientUpdate c info).latest = some info ∧
      (clientUpdate c info).locked = c.locked) := by
  constructor
  · intro hcl
    simp [clientUpdate, hcl]
  · intro hcl old hold
    have hlen : ¬ info.wmClass.length = 0 := by
      intro h0
      exact hcl (String.ext (List.length_eq_zero.mp h0))
    by_cases hd : infoDiffers info old
    · simp [clientUpdate, hlen, hold, hd]
    · simp [clientUpdate, hlen, hold, hd]

/-- Concrete instance of the amended C2: a clean client updated with a
changed geometry gets exactly the dirty flag `false || infoDiffers`. -/
theorem clientUpdate_amended_witness :
    (clientUpdate { locked := false, latest := some info0, dirty := false }
        info1).dirty = (false || infoDiffers info1 info0) :=
  ((clientUpdate_amended
      { locked := false, latest := some info0, dirty := false } info1).2
    (by decide) info0 rfl).1

/-! ## C3: Client.Write temp-file protocol -/

/-- C3: a clean client writes nothing; a dirty client on full success
performs exactly create-temp, write, sync, close, chmod, rename and clears
the dirty flag; when the temp file was created and a later protocol step
fails, the temp file is removed and the dirty flag stays set; and the dirty
flag is cleared only by the fully successful protocol. -/
theorem clientWrite_claim (m ct w s cl ch r d : Bool) :
    (clientWrite false false (WriteOutcome.mk m ct w s cl ch r) = ([], false)) ∧
    ((m && (ct && (w && (s && (cl && (ch && r)))))) = true →
      clientWrite false true (WriteOutcome.mk m ct w s cl ch r)
        = (writeProtocol, false)) ∧
    ((m && ct) = true → (w && (s && (cl && (ch && r)))) = false →
      FsOp.removeTemp ∈ (clientWrite false true (WriteOutcome.mk m ct w s cl ch r)).1 ∧
      (clientWrite false true (WriteOutcome.mk m ct w s cl ch r)).2 = true) ∧
    ((clientWrite false d (WriteOutcome.mk m ct w s cl ch r)).2 = false →
      d = false ∨ clientWrite false d (WriteOutcome.mk m ct w s cl ch r)
        = (writeProtocol, false)) := by
  cases m <;> cases ct <;> cases w <;> cases s <;> cases cl <;> cases ch <;>
    cases r <;> cases d <;> decide

/-- Concrete instance of C3: with every step succeeding, a dirty client
performs the full protocol and comes out clean. -/
theorem clientWrite_claim_witness :
    clientWrite false true (WriteOutcome.mk true true true true true true true)
      = (writeProtocol, false) :=
  (clientWrite_claim true true true true true true true true).2.1 rfl

/-! ## C4: debounced write scheduling -/

/-- C4: `scheduleWrite` at time t sets the pending deadline to t + 750ms
unless an earlier deadline is already pending (a later deadline never
overwrites an earlier pending one); the timer is armed to fire exactly at
the pending deadline; and two calls at t = 0 and t = 300 from an idle state
produce exactly one write, beginning at t = 750. -/
theorem scheduleWrite_claim (s : SchedState) (t : Int) :
    (s.writeDue = false ∨ t + writeDebounceMs < s.writeDueAt →
      (scheduleWrite t s).writeDueAt = t + writeDebounceMs) ∧
    (s.writeDue = true → s.writeDueAt ≤ t + writeDebounceMs →
      (scheduleWrite t s).writeDueAt = s.writeDueAt) ∧
    (t ≤ (scheduleWrite t s).writeDueAt →
      (scheduleWrite t s).timer = some (scheduleWrite t s).writeDueAt) ∧
    (∀ s0 : SchedState, s0.writeDue = false → s0.writes = [] →
      (scheduleWrite 300 (scheduleWrite 0 s0)).writeDueAt = 750 ∧
      (scheduleWrite 300 (scheduleWrite 0 s0)).timer = some 750 ∧
      (flushScheduledWrite 750 (scheduleWrite 300 (scheduleWrite 0 s0))).writes
        = [750] ∧
      (flushScheduledWrite 750 (scheduleWrite 300 (scheduleWrite 0 s0))).writeDue
        = false ∧
      (flushScheduledWrite 750 (scheduleWrite 300 (scheduleWrite 0 s0))).timer
        = none) := by
  refine ⟨?_, ?_, ?_, ?_⟩
  · intro hc
    have hc' : (!s.writeDue) = true ∨ t + writeDebounceMs < s.writeDueAt := by
      rcases hc with hc | hc
      · exact Or.inl (by simp [hc])
      · exact Or.inr hc
    simp only [scheduleWrite, if_pos hc']
  · intro h1 h2
    have hc' : ¬ ((!s.writeDue) = true ∨ t + writeDebounceMs < s.writeDueAt) := by
      simp [h1]
      omega
    simp only [scheduleWrite, if_neg hc']
  · intro ht
    have htimer : (scheduleWrite t s).timer
        = some (t + max ((scheduleWrite t s).writeDueAt - t) 0) := by
      simp [scheduleWrite]
    rw [htimer]
    have hm : max ((scheduleWrite t s).writeDueAt - t) 0
        = (scheduleWrite t s).writeDueAt - t := max_eq_left (by omega)
    rw [hm]
    congr 1
    omega
  · intro s0 h1 h2
    have e1 : scheduleWrite 0 s0
        = { writeDue := true, writeDueAt := 750, timer := some 750, writes := [] } := by
      simp [scheduleWrite, writeDebounceMs, h1, h2]
    rw [e1]
    refine ⟨by decide, by decide, by decide, by decide, by decide⟩

/-- Concrete instance of C4: scheduling from an idle scheduler at t = 0
sets the pending deadline to 750. -/
theorem scheduleWrite_claim_witness :
    (scheduleWrite 0
        { writeDue := false, writeDueAt := 0, timer := none, writes := [] }).writeDueAt
      = 0 + writeDebounceMs :=
  (scheduleWrite_claim
    { writeDue := false, writeDueAt := 0, timer := none, writes := [] } 0).1
    (Or.inl rfl)

/-! ## C8: Client.MoveWindow lock and request shape -/

/-- C8: a locked client gets no request at all (not even the refresh) and
only its lock is consumed; an unlocked client first gets the un-maximize
and un-fullscreen state removals, then exactly one geometry request, which
is a move-resize when both w and h are positive and a plain move otherwise. -/
theorem moveWindow_claim (latest : Info) (locked : Bool) (x y w h : Int) :
    (locked = true → moveWindow latest locked x y w h = ([], false)) ∧
    (locked = false →
      (moveWindow latest locked x y w h).2 = false ∧
      ((0 < w ∧ 0 < h) → ∃ a b c' d',
        (moveWindow latest locked x y w h).1
          = unMaximizeOps latest ++ unFullscreenOps latest
              ++ [XOp.moveResize a b c' d', XOp.update]) ∧
      (¬ (0 < w ∧ 0 < h) → ∃ a b,
        (moveWindow latest locked x y w h).1
          = unMaximizeOps latest ++ unFullscreenOps latest
              ++ [XOp.move a b, XOp.update])) := by
  constructor
  · intro hl
    simp [moveWindow, hl]
  · intro hl
    subst hl
    refine ⟨by simp [moveWindow], ?_, ?_⟩
    · intro hwh
      refine ⟨x + (if latest.dimensions.adjPos then latest.dimensions.extents.left else 0),
        y + (if latest.dimensions.adjPos then latest.dimensions.extents.top else 0),
        w - (if latest.dimensions.adjSize then
          latest.dimensions.extents.left + latest.dimensions.extents.right else 0),
        h - (if latest.dimensions.adjSize then
          latest.dimensions.extents.top + latest.dimensions.extents.bottom else 0), ?_⟩
      simp [moveWindow, if_pos hwh]
    · intro hwh
      refine ⟨x + (if latest.dimensions.adjPos then latest.dimensions.extents.left else 0),
        y + (if latest.dimensions.adjPos then latest.dimensions.extents.top else 0), ?_⟩
      simp [moveWindow, if_neg hwh]

/-- Concrete instance of C8: a locked client's move is rejected with an
empty request trace and the lock cleared. -/
theorem moveWindow_claim_witness :
    moveWindow info0 true 1 2 3 4 = ([], false) :=
  (moveWindow_claim info0 true 1 2 3 4).1 rfl

/-! ## C6: IncreaseMaster then DecreaseMaster round-trip -/

/-- C6: when IncreaseMaster actually fires (more than one slave, and the
master cap below windowMastersMax), following it with DecreaseMaster
restores the masters maximum and both bucket contents exactly. -/
theorem increaseDecrease_claim (wmax : Int) (mg : ManagerState)
    (h1 : 1 < mg.slaves.stacked.length)
    (h2 : mg.masters.maximum < wmax) :
    decreaseMaster (increaseMaster wmax mg) = mg := by
  obtain ⟨⟨mm, ms⟩, ⟨sm, ss⟩⟩ := mg
  simp only at h1 h2
  cases ss with
  | nil => simp at h1
  | cons s0 rest =>
    simp only [increaseMaster]
    rw [if_pos ⟨h1, h2⟩]
    simp only [decreaseMaster]
    have hlen : 0 < (ms ++ [(s0 :: rest).getD 0 0]).length := by
      simp
    rw [if_pos hlen]
    have e0 : (s0 :: rest).getD 0 0 = s0 := rfl
    rw [e0]
    have e1 : mm + 1 - 1 = mm := by omega
    have e2 : (ms ++ [s0]).dropLast = ms := by
      rw [List.dropLast_concat]
    have e3 : (ms ++ [s0]).getD ((ms ++ [s0]).length - 1) 0 = s0 := by
      have hidx : (ms ++ [s0]).length - 1 = ms.length := by simp
      rw [hidx]
      simp [List.getD_eq_getElem?_getD, List.getElem?_append_right (le_refl ms.length)]
    have e4 : List.drop 1 (s0 :: rest) = rest := rfl
    rw [e1, e2, e3, e4]

/-- Concrete instance of C6: with masters [1] (cap 1), slaves [2, 3] and
windowMastersMax = 2, increase then decrease restores the manager. -/
theorem increaseDecrease_claim_witness :
    decreaseMaster (increaseMaster 2
        { masters := { maximum := 1, stacked := [1] },
          slaves := { maximum := 3, stacked := [2, 3] } })
      = { masters := { maximum := 1, stacked := [1] },
          slaves := { maximum := 3, stacked := [2, 3] } } :=
  increaseDecrease_claim 2 _ (by decide) (by decide)

/-! ## C9: visible client selection -/

/-- Folding slot-writes over a list never changes the accumulator length. -/
theorem foldl_set_length (l : List Nat) (f : Nat → Nat) (acc : List (Option Nat)) :
    (l.foldl (fun a c => a.set (f c) (some c)) acc).length = acc.length := by
  induction l generalizing acc with
  | nil => rfl
  | cons c cs ih => simp [List.foldl_cons, ih, List.length_set]

/-- The length of Manager.Visible is `min(len(stacked), maximum)`. -/
theorem visible_length (so : List Nat) (b : ClientsBucket) :
    (visible so b).length = (min (b.stacked.length : Int) b.maximum).toNat := by
  simp [visible, foldl_set_length, List.length_replicate]

/-- Invariant of the Visible fill loop: every filled slot holds a bucket
member whose slot function points back at that position. -/
theorem foldl_set_slots (stacked : List Nat) (f : Nat → Nat) (l : List Nat)
    (acc : List (Option Nat))
    (hl : ∀ c ∈ l, c ∈ stacked)
    (hacc : ∀ k (h : k < acc.length) c, acc.get ⟨k, h⟩ = some c →
      c ∈ stacked ∧ f c = k) :
    ∀ k (h : k < (l.foldl (fun a c => a.set (f c) (some c)) acc).length) c,
      (l.foldl (fun a c => a.set (f c) (some c)) acc).get ⟨k, h⟩ = some c →
      c ∈ stacked ∧ f c = k := by
  induction l generalizing acc with
  | nil => exact hacc
  | cons c0 cs ih =>
    intro k h c hg
    refine ih (acc.set (f c0) (some c0))
      (fun x hx => hl x (List.mem_cons_of_mem _ hx)) ?_ k h c hg
    intro k' h' c' hg'
    by_cases hk : f c0 = k'
    · subst hk
      have hv : (acc.set (f c0) (some c0)).get ⟨f c0, h'⟩ = some c0 := by
        simp only [List.get_eq_getElem]
        exact List.getElem_set_self h'
      rw [hv] at hg'
      obtain rfl : c0 = c' := Option.some.inj hg'
      exact ⟨hl c0 (List.mem_cons_self _ _), rfl⟩
    · have hv : (acc.set (f c0) (some c0)).get ⟨k', h'⟩
          = acc.get ⟨k', by simpa using h'⟩ := by
        simp only [List.get_eq_getElem]
        exact List.getElem_set_ne hk _
      rw [hv] at hg'
      exact hacc k' _ c' hg'

/-- Every filled slot of Manager.Visible holds a bucket member sitting at
its index-mod-maximum position. -/
theorem visible_slots (so : List Nat) (b : ClientsBucket) :
    ∀ k (h : k < (visible so b).length) c,
      (visible so b).get ⟨k, h⟩ = some c →
      c ∈ b.stacked ∧ visibleSlot b c = k := by
  unfold visible
  apply foldl_set_slots
  · intro c hc
    have := (List.mem_filter.mp hc).2
    simpa using this
  · intro k h c hg
    exfalso
    rw [List.get_eq_getElem, List.getElem_replicate] at hg
    exact Option.noConfusion hg

/-- C9: the visible selection has at most `masters.maximum` master slots and
at most `slaves.maximum` slave slots, so its total length is bounded by
their sum, and each filled slot holds a bucket member placed at its bucket
index modulo the bucket's maximum. -/
theorem visible_claim (so : List Nat) (mg : ManagerState) :
    (clientsVisible so mg).length
      ≤ mg.masters.maximum.toNat + mg.slaves.maximum.toNat ∧
    (∀ k (h : k < (visible so mg.masters).length) c,
      (visible so mg.masters).get ⟨k, h⟩ = some c →
      c ∈ mg.masters.stacked ∧ visibleSlot mg.masters c = k) ∧
    (∀ k (h : k < (visible so mg.slaves).length) c,
      (visible so mg.slaves).get ⟨k, h⟩ = some c →
      c ∈ mg.slaves.stacked ∧ visibleSlot mg.slaves c = k) := by
  refine ⟨?_, visible_slots so mg.masters, visible_slots so mg.slaves⟩
  have hm : (visible so mg.masters).length ≤ mg.masters.maximum.toNat := by
    rw [visible_length]
    exact Int.toNat_le_toNat (min_le_right _ _)
  have hs : (visible so mg.slaves).length ≤ mg.slaves.maximum.toNat := by
    rw [visible_length]
    exact Int.toNat_le_toNat (min_le_right _ _)
  calc (clientsVisible so mg).length
      = (visible so mg.masters).length + (visible so mg.slaves).length := by
        simp [clientsVisible]
    _ ≤ mg.masters.maximum.toNat + mg.slaves.maximum.toNat :=
        Nat.add_le_add hm hs

/-- Concrete instance of C9: with stacking order [1, 2] and masters bucket
(cap 2, stacked [1, 2]), slot 0 of the visible list holds window 1, a
bucket member whose index mod maximum is 0. -/
theorem visible_claim_witness :
    (1 : Nat) ∈ ({ maximum := 2, stacked := [1, 2] } : ClientsBucket).stacked ∧
    visibleSlot { maximum := 2, stacked := [1, 2] } 1 = 0 :=
  (visible_claim [1, 2]
      { masters := { maximum := 2, stacked := [1, 2] },
        slaves := { maximum := 2, stacked := [] } }).2.1
    0 (by decide) 1 (by decide)

/-! ## C7: trackability predicate -/

/-- store.IsIgnored rejects nothing exactly when the class is non-empty and
no configured ignore pair matches. -/
theorem isIgnored_eq_false_iff (ctx : TrackerCtx) (i : Info) :
    isIgnored ctx i = false ↔ (i.wmClass ≠ "" ∧ NoIgnoreMatch ctx i) := by
  unfold isIgnored NoIgnoreMatch
  by_cases h0 : i.wmClass.length = 0
  · have he : i.wmClass = "" := String.ext (List.length_eq_zero.mp h0)
    simp [h0, he]
  · have hne : i.wmClass ≠ "" := fun he => h0 (by rw [he]; rfl)
    simp only [if_neg h0, List.any_eq_false]
    constructor
    · intro hall
      refine ⟨hne, ?_⟩
      intro p hp hcm
      have h := hall p hp
      rw [hcm] at h
      simp only [Bool.true_and, Bool.not_eq_true', Bool.not_eq_false] at h
      simpa [Bool.and_eq_true, bne_iff_ne] using h
    · rintro ⟨-, hall⟩
      intro p hp
      by_cases hcm : ctx.regexMatch p.1.toLower i.wmClass.toLower = true
      · obtain ⟨hp2, hm⟩ := hall p hp hcm
        simp [hcm, hp2, hm]
      · have hcm' : ctx.regexMatch p.1.toLower i.wmClass.toLower = false :=
          Bool.eq_false_iff.mpr hcm
        simp [hcm']

/-- store.IsSpecial rejects nothing exactly when the class is not the build
name, no special EWMH type occurs, and every special state present is the
skipped hidden-on-another-desktop case. -/
theorem isSpecial_eq_false_iff (ctx : TrackerCtx) (i : Info) :
    isSpecial ctx i = false ↔
      (i.wmClass ≠ ctx.buildName ∧
       (∀ t ∈ i.types, t ∉ specialTypeNames) ∧
       (∀ s ∈ i.states, s ∈ specialStateNames →
         s = "_NET_WM_STATE_HIDDEN" ∧ i.location.desktop ≠ ctx.currentDesktop)) := by
  unfold isSpecial
  by_cases hb : i.wmClass = ctx.buildName
  · simp [hb]
  · rw [if_neg hb]
    by_cases ht : i.types.any (fun t => specialTypeNames.contains t) = true
    · rw [if_pos ht]
      rw [List.any_eq_true] at ht
      obtain ⟨t, htm, htc⟩ := ht
      constructor
      · intro h
        exact absurd h (by simp)
      · intro ⟨_, htypes, _⟩
        exact absurd (by simpa using htc) (htypes t htm)
    · rw [if_neg ht]
      rw [Bool.not_eq_true, List.any_eq_false] at ht
      rw [List.any_eq_false]
      constructor
      · intro hall
        refine ⟨hb, ?_, ?_⟩
        · intro t htm htc
          exact ht t htm (by simpa using htc)
        · intro s hsm hss
          have h := hall s hsm
          by_cases hc : s = "_NET_WM_STATE_HIDDEN" ∧
              i.location.desktop ≠ ctx.currentDesktop
          · exact hc
          · rw [if_neg hc] at h
            exact absurd (by simpa using hss) h
      · intro ⟨_, _, hstates⟩ s hsm
        by_cases hc : s = "_NET_WM_STATE_HIDDEN" ∧
            i.location.desktop ≠ ctx.currentDesktop
        · rw [if_pos hc]
          simp
        · rw [if_neg hc]
          intro hcontains
          exact hc (hstates s hsm (by simpa using hcontains))

/-- Refutation of C7 as stated: a window whose class is the tool's own
build name ("cortile") has a non-empty class, no special EWMH type or
state, and matches no ignore pair, yet it is not trackable (the internal
window check of store.IsSpecial rejects it). -/
theorem isTrackable_claim_counterexample :
    isTrackableInfo ctx0 (some infoCortile) = false ∧
    infoCortile.wmClass ≠ "" ∧
    (∀ t ∈ infoCortile.types, t ∉ specialTypeNames) ∧
    (∀ s ∈ infoCortile.states, s ∉ specialStateNames) ∧
    isIgnored ctx0 infoCortile = false := by
  refine ⟨by decide, by decide, by decide, by decide, by decide⟩

/-- C7 as amended: a window is trackable iff — when it carries the hidden
state and sits on a non-current desktop — its class is non-empty and no
ignore pair matches; and otherwise its class is non-empty and differs from
the tool's build name, it has no special EWMH type, every special state it
carries is the skipped hidden-on-another-desktop case, and no ignore pair
matches. -/
theorem isTrackable_amended (ctx : TrackerCtx) (i : Info) :
    isTrackableInfo ctx (some i) = true ↔ TrackableAmended ctx i := by
  simp only [isTrackableInfo, TrackableAmended]
  by_cases hh : i.states.contains "_NET_WM_STATE_HIDDEN" = true ∧
      i.location.desktop ≠ ctx.currentDesktop
  · have hcb : (i.states.contains "_NET_WM_STATE_HIDDEN" &&
        (i.location.desktop != ctx.currentDesktop)) = true := by
      rw [Bool.and_eq_true]
      exact ⟨hh.1, bne_iff_ne.mpr hh.2⟩
    rw [if_pos hh, hcb]
    simp only [if_true]
    rw [Bool.not_eq_true']
    exact isIgnored_eq_false_iff ctx i
  · have hcb : (i.states.contains "_NET_WM_STATE_HIDDEN" &&
        (i.location.desktop != ctx.currentDesktop)) = false := by
      cases hcnt : i.states.contains "_NET_WM_STATE_HIDDEN" with
      | false => rw [Bool.false_and]
      | true =>
        have hd : i.location.desktop = ctx.currentDesktop := by
          by_contra hnd
          exact hh ⟨hcnt, hnd⟩
        rw [hd, Bool.true_and, bne_self_eq_false]
    rw [if_neg hh, hcb]
    simp only [Bool.false_eq_true, if_false]
    rw [Bool.and_eq_true, Bool.not_eq_true', Bool.not_eq_true',
      isSpecial_eq_false_iff, isIgnored_eq_false_iff]
    tauto

/-! ## C5: RemoveClient -/

/-- Replacing the sole occurrence of `c` in a duplicate-free list by some
other id removes `c` from the list. -/
theorem not_mem_set_of_nodup (l : List Nat) (c : Nat) (hl : l.Nodup) (k : Nat)
    (hk : k < l.length) (hc : l.get ⟨k, hk⟩ = c) (x : Nat) (hx : x ≠ c) :
    c ∉ l.set k x := by
  induction l generalizing k with
  | nil => simp
  | cons y ys ih =>
    obtain ⟨hy, hys⟩ := List.nodup_cons.mp hl
    cases k with
    | zero =>
      have hcy : y = c := by simpa using hc
      intro hmem
      rcases List.mem_cons.mp (by simpa using hmem) with h | h
      · exact hx h.symm
      · exact hy (hcy ▸ h)
    | succ n =>
      have hn : n < ys.length := by simpa using hk
      have hcy : ys.get ⟨n, hn⟩ = c := by simpa using hc
      intro hmem
      rcases List.mem_cons.mp (by simpa [List.set_cons_succ] using hmem) with h | h
      · have : y ∈ ys := by
          rw [← h, ← hcy]
          exact List.get_mem ys n hn
        exact hy this
      · exact ih hys n hn hcy h

/-- Erasing the position of the sole occurrence of `c` in a duplicate-free
list removes `c` from the list. -/
theorem not_mem_eraseIdx_of_nodup (l : List Nat) (c : Nat) (hl : l.Nodup)
    (k : Nat) (hk : k < l.length) (hc : l.get ⟨k, hk⟩ = c) :
    c ∉ l.eraseIdx k := by
  induction l generalizing k with
  | nil => simp
  | cons y ys ih =>
    obtain ⟨hy, hys⟩ := List.nodup_cons.mp hl
    cases k with
    | zero =>
      have hcy : y = c := by simpa using hc
      simpa [List.eraseIdx, hcy] using (hcy ▸ hy)
    | succ n =>
      have hn : n < ys.length := by simpa using hk
      have hcy : ys.get ⟨n, hn⟩ = c := by simpa using hc
      intro hmem
      rcases List.mem_cons.mp (by simpa [List.eraseIdx] using hmem) with h | h
      · have : y ∈ ys := by
          rw [← h, ← hcy]
          exact List.get_mem ys n hn
        exact hy this
      · exact ih hys n hn hcy h

/-- RemoveClient on a master with a non-empty slave bucket: the master slot
takes the front slave, which is dropped from the slaves. -/
theorem removeClient_master_swap (mm sm : Int) (ms : List Nat) (s0 : Nat)
    (rest : List Nat) (c : Nat) (hcm : c ∈ ms) (hs0 : s0 ∉ ms)
    (hcs : c ∉ s0 :: rest) :
    removeClient ⟨⟨mm, ms⟩, ⟨sm, s0 :: rest⟩⟩ c
      = ⟨⟨mm, ms.set (indexOfId ms c).toNat s0⟩, ⟨sm, rest⟩⟩ := by
  have hmi := (indexOfId_spec hcm).1
  have hget := (indexOfId_spec hcm).2.2
  have hm2 : indexOfId ms s0 = -1 := indexOfId_of_not_mem hs0
  have hs1 : indexOfId (s0 :: rest) c = -1 := indexOfId_of_not_mem hcs
  have hcr : c ∉ rest := fun h => hcs (List.mem_cons_of_mem _ h)
  have hs2 : indexOfId (s0 :: rest) s0 = 0 := by simp [indexOfId]
  have hrest : indexOfId rest c = -1 := indexOfId_of_not_mem hcr
  simp only [removeClient]
  rw [if_pos hmi, if_pos (List.cons_ne_nil s0 rest), hget, List.getD_cons_zero]
  simp only [swapClient]
  rw [hm2, hs1, hs2]
  have hc1 : ¬ (0 ≤ indexOfId ms c ∧ 0 ≤ (-1 : Int)) :=
    fun hand => absurd hand.2 (by norm_num)
  rw [if_neg hc1]
  have hc2 : 0 ≤ indexOfId ms c ∧ 0 ≤ (0 : Int) := ⟨hmi, le_refl 0⟩
  rw [if_pos hc2]
  simp only [Int.toNat_zero, List.getD_cons_zero, List.set_cons_zero,
    List.drop_succ_cons, List.drop_zero]
  rw [hrest]
  rw [if_neg (by norm_num)]

/-- RemoveClient on a master with no slaves: plain erasure from masters. -/
theorem removeClient_master_empty (mm sm : Int) (ms : List Nat) (c : Nat)
    (hcm : c ∈ ms) :
    removeClient ⟨⟨mm, ms⟩, ⟨sm, []⟩⟩ c
      = ⟨⟨mm, ms.eraseIdx (indexOfId ms c).toNat⟩, ⟨sm, []⟩⟩ := by
  have hmi := (indexOfId_spec hcm).1
  simp only [removeClient]
  rw [if_pos hmi]
  simp [indexOfId]

/-- RemoveClient on a slave: plain erasure from slaves. -/
theorem removeClient_slave (mm sm : Int) (ms ss : List Nat) (c : Nat)
    (hcm : c ∉ ms) (hcs : c ∈ ss) :
    removeClient ⟨⟨mm, ms⟩, ⟨sm, ss⟩⟩ c
      = ⟨⟨mm, ms⟩, ⟨sm, ss.eraseIdx (indexOfId ss c).toNat⟩⟩ := by
  have hmi : indexOfId ms c = -1 := indexOfId_of_not_mem hcm
  have hsi := (indexOfId_spec hcs).1
  have hno : ¬ (0 ≤ (-1 : Int)) := by norm_num
  simp only [removeClient]
  rw [hmi, if_neg hno]
  dsimp only
  rw [if_pos hsi]

/-- RemoveClient on an untracked client: no change. -/
theorem removeClient_absent (mg : ManagerState) (c : Nat)
    (h1 : c ∉ mg.masters.stacked) (h2 : c ∉ mg.slaves.stacked) :
    removeClient mg c = mg := by
  have hmi : indexOfId mg.masters.stacked c = -1 := indexOfId_of_not_mem h1
  have hsi : indexOfId mg.slaves.stacked c = -1 := indexOfId_of_not_mem h2
  have hno : ¬ (0 ≤ (-1 : Int)) := by norm_num
  simp only [removeClient]
  rw [hmi, if_neg hno, hsi, if_neg hno]

/-- The stacked list holds `c` at its computed index (get form). -/
theorem indexOfId_get {ws : List Nat} {c : Nat} (h : c ∈ ws)
    (hlt : (indexOfId ws c).toNat < ws.length) :
    ws.get ⟨(indexOfId ws c).toNat, hlt⟩ = c := by
  have hget := (indexOfId_spec h).2.2
  rw [List.getD_eq_getElem?_getD, List.getElem?_eq_getElem hlt] at hget
  simpa using hget

/-- C5: under the buckets-disjoint/duplicate-free invariant, RemoveClient
removes a master by swapping it with the front slave and dropping that
slave (when slaves exist), erases a master plainly when no slave exists,
erases a slave from the slaves, leaves an untracked client's manager
unchanged, keeps the other clients' relative order (the exact list
equations), keeps both maxima, and leaves `c` in neither bucket. -/
theorem removeClient_claim (mg : ManagerState) (c : Nat)
    (hnd : (mg.masters.stacked ++ mg.slaves.stacked).Nodup) :
    (c ∈ mg.masters.stacked → mg.slaves.stacked ≠ [] →
      (removeClient mg c).masters.stacked
        = mg.masters.stacked.set (indexOfId mg.masters.stacked c).toNat
            (mg.slaves.stacked.getD 0 0) ∧
      (removeClient mg c).slaves.stacked = mg.slaves.stacked.tail) ∧
    (c ∈ mg.masters.stacked → mg.slaves.stacked = [] →
      (removeClient mg c).masters.stacked
        = mg.masters.stacked.eraseIdx (indexOfId mg.masters.stacked c).toNat ∧
      (removeClient mg c).slaves.stacked = []) ∧
    (c ∈ mg.slaves.stacked →
      (removeClient mg c).masters.stacked = mg.masters.stacked ∧
      (removeClient mg c).slaves.stacked
        = mg.slaves.stacked.eraseIdx (indexOfId mg.slaves.stacked c).toNat) ∧
    (c ∉ mg.masters.stacked → c ∉ mg.slaves.stacked → removeClient mg c = mg) ∧
    (c ∉ (removeClient mg c).masters.stacked ∧
      c ∉ (removeClient mg c).slaves.stacked) ∧
    (removeClient mg c).masters.maximum = mg.masters.maximum ∧
    (removeClient mg c).slaves.maximum = mg.slaves.maximum := by
  obtain ⟨⟨mm, ms⟩, ⟨sm, ss⟩⟩ := mg
  dsimp only at hnd ⊢
  rw [List.nodup_append] at hnd
  obtain ⟨hmnd, hsnd, hdisj⟩ := hnd
  by_cases hcm : c ∈ ms
  · have hcs : c ∉ ss := fun h => hdisj hcm h
    obtain ⟨h0, hlt, _⟩ := indexOfId_spec hcm
    cases ss with
    | nil =>
      rw [removeClient_master_empty mm sm ms c hcm]
      refine ⟨?_, ?_, ?_, ?_, ⟨?_, ?_⟩, ?_, ?_⟩
      · intro _ hne
        exact absurd rfl hne
      · intro _ _
        exact ⟨rfl, rfl⟩
      · intro hcs'
        simp at hcs'
      · intro hcm' _
        exact absurd hcm hcm'
      · exact not_mem_eraseIdx_of_nodup ms c hmnd _ hlt (indexOfId_get hcm hlt)
      · simp
      · rfl
      · rfl
    | cons s0 rest =>
      have hs0 : s0 ∉ ms := fun h => hdisj h (List.mem_cons_self s0 rest)
      rw [removeClient_master_swap mm sm ms s0 rest c hcm hs0 hcs]
      refine ⟨?_, ?_, ?_, ?_, ⟨?_, ?_⟩, ?_, ?_⟩
      · intro _ _
        exact ⟨rfl, rfl⟩
      · intro _ hse
        exact absurd hse (List.cons_ne_nil s0 rest)
      · intro hcs'
        exact absurd hcs' hcs
      · intro hcm' _
        exact absurd hcm hcm'
      · have hs0c : s0 ≠ c := fun h => hcs (h ▸ List.mem_cons_self s0 rest)
        exact not_mem_set_of_nodup ms c hmnd _ hlt (indexOfId_get hcm hlt) s0 hs0c
      · exact fun h => hcs (List.mem_cons_of_mem _ h)
      · rfl
      · rfl
  · by_cases hcs : c ∈ ss
    · rw [removeClient_slave mm sm ms ss c hcm hcs]
      obtain ⟨h0, hlt, _⟩ := indexOfId_spec hcs
      refine ⟨?_, ?_, ?_, ?_, ⟨?_, ?_⟩, ?_, ?_⟩
      · intro hcm' _
        exact absurd hcm' hcm
      · intro hcm' _
        exact absurd hcm' hcm
      · intro _
        exact ⟨rfl, rfl⟩
      · intro _ hcs'
        exact absurd hcs hcs'
      · exact hcm
      · exact not_mem_eraseIdx_of_nodup ss c hsnd _ hlt (indexOfId_get hcs hlt)
      · rfl
      · rfl
    · rw [removeClient_absent _ c hcm hcs]
      refine ⟨?_, ?_, ?_, ?_, ⟨hcm, hcs⟩, rfl, rfl⟩
      · intro hcm' _
        exact absurd hcm' hcm
      · intro hcm' _
        exact absurd hcm' hcm
      · intro hcs'
        exact absurd hcs' hcs
      · intro _ _
        rfl

/-- Concrete instance of C5: removing master 1 from masters [1, 2] with
slaves [3, 4] puts the front slave 3 into 1's slot and drops it from the
slaves. -/
theorem removeClient_claim_witness :
    (removeClient { masters := { maximum := 2, stacked := [1, 2] },
                    slaves := { maximum := 3, stacked := [3, 4] } } 1).masters.stacked
        = [1, 2].set (indexOfId [1, 2] 1).toNat ([3, 4].getD 0 0) ∧
    (removeClient { masters := { maximum := 2, stacked := [1, 2] },
                    slaves := { maximum := 3, stacked := [3, 4] } } 1).slaves.stacked
        = [3, 4].tail :=
  (removeClient_claim
      { masters := { maximum := 2, stacked := [1, 2] },
        slaves := { maximum := 3, stacked := [3, 4] } } 1 (by decide)).1
    (by decide) (by decide)

end Cortile
